import Mathlib

/-!
# Verification of the alarm-clock event resolver and control loop

A shallow embedding of `alarmclock.py`: the occurrence data model, the
`update_events` resolver loop, the fingerprint (`event_str` / `event_hash`),
and the nested polling loop that drives the relay.  Instants (the `.dt`
values of `DTSTART` / `DTEND`) are modelled as natural numbers (seconds);
Python strings of instants are modelled as decimal digit sequences.
-/

/-- One concrete calendar occurrence, as produced by
`recurring_ical_events.of(calendar).between(...)`: the code reads
`event["DTSTART"].dt`, `event["DTEND"].dt` and `event["SUMMARY"]`. -/
structure Occurrence where
  dtstart : Nat
  dtend : Nat
  summary : String
deriving DecidableEq

/-- Model of Python `str(...)` applied to an instant: the decimal digit
sequence of the instant (instants are modelled as integer seconds, so the
rendering is injective, as `str` of a `datetime` is). -/
def str_dt (n : Nat) : List Nat :=
  Nat.digits 10 n

/-- The digest input built by `update_events`:
`event_str = event_str + str(event["DTSTART"].dt) + str(event["DTEND"].dt)`
folded over the (sorted) event list. -/
def event_str (events : List Occurrence) : List Nat :=
  events.foldl (fun s e => s ++ str_dt e.dtstart ++ str_dt e.dtend) []

/-- The fingerprint `event_hash = hash(event_str)`.  CPython's `hash` on
strings is a process-seeded SipHash and has no shallow embedding; within a
process it is a fixed deterministic function of `event_str`, so the
fingerprint is modelled by the digest input itself: every property of
`event_hash` proved here (being a function of the `(start, end)` pairs,
and changing under a single-field change) holds of the digest content the
hash is applied to. -/
def event_hash (events : List Occurrence) : List Nat :=
  event_str events

theorem str_dt_injective : Function.Injective str_dt := by
  intro a b h
  have := congrArg (Nat.ofDigits 10) h
  rwa [str_dt, str_dt, Nat.ofDigits_digits, Nat.ofDigits_digits] at this

theorem event_str_foldl (events : List Occurrence) (acc : List Nat) :
    events.foldl (fun s e => s ++ str_dt e.dtstart ++ str_dt e.dtend) acc =
      acc ++ event_str events := by
  induction events generalizing acc with
  | nil => simp [event_str]
  | cons e t ih =>
      rw [List.foldl_cons, ih]
      conv_rhs => rw [event_str, List.foldl_cons, ih ((List.nil ++ str_dt e.dtstart) ++ str_dt e.dtend)]
      simp

theorem event_str_cons (e : Occurrence) (t : List Occurrence) :
    event_str (e :: t) = str_dt e.dtstart ++ str_dt e.dtend ++ event_str t := by
  rw [event_str, List.foldl_cons, event_str_foldl]
  simp

theorem event_str_append (l₁ l₂ : List Occurrence) :
    event_str (l₁ ++ l₂) = event_str l₁ ++ event_str l₂ := by
  induction l₁ with
  | nil => simp [event_str]
  | cons e t ih => simp [event_str_cons, ih]

/-- The key order used by `events.sort(key=lambda date: date["DTSTART"].dt)`. -/
def startLE (a b : Occurrence) : Prop :=
  a.dtstart ≤ b.dtstart

instance : DecidableRel startLE :=
  fun a b => Nat.decLe a.dtstart b.dtstart

instance : IsTotal Occurrence startLE :=
  ⟨fun a b => Nat.le_total a.dtstart b.dtstart⟩

instance : IsTrans Occurrence startLE :=
  ⟨fun _ _ _ hab hbc => Nat.le_trans hab hbc⟩

/-- `events.sort(key=lambda date: date["DTSTART"].dt)`: Python `list.sort`
is a stable sort by the key; modelled as insertion sort (stable) under
`startLE`. -/
def sort_events (l : List Occurrence) : List Occurrence :=
  List.insertionSort startLE l

/-- The digest input only reads each occurrence's `(DTSTART, DTEND)` pair:
summaries do not enter `event_str`. -/
theorem event_str_eq_of_pairs_eq :
    ∀ {l₁ l₂ : List Occurrence},
      l₁.map (fun o => (o.dtstart, o.dtend)) = l₂.map (fun o => (o.dtstart, o.dtend)) →
      event_str l₁ = event_str l₂ := by
  intro l₁
  induction l₁ with
  | nil =>
      intro l₂ h
      cases l₂ with
      | nil => rfl
      | cons b t => simp at h
  | cons a t ih =>
      intro l₂ h
      cases l₂ with
      | nil => simp at h
      | cons b t₂ =>
          simp only [List.map_cons, List.cons.injEq, Prod.mk.injEq] at h
          rw [event_str_cons, event_str_cons, h.1.1, h.1.2, ih h.2]

theorem sorted_sort_events (l : List Occurrence) :
    List.Sorted startLE (sort_events l) :=
  List.sorted_insertionSort startLE l

theorem filter_orderedInsert (k : Nat) (a : Occurrence) (m : List Occurrence) :
    (List.orderedInsert startLE a m).filter (fun o => o.dtstart == k) =
      if a.dtstart = k then a :: m.filter (fun o => o.dtstart == k)
      else m.filter (fun o => o.dtstart == k) := by
  induction m with
  | nil =>
      by_cases h : a.dtstart = k <;> simp [List.orderedInsert, List.filter_cons, h]
  | cons b t ih =>
      by_cases hr : startLE a b
      · by_cases h : a.dtstart = k <;>
          simp [List.orderedInsert, hr, List.filter_cons, h]
      · have hlt : b.dtstart < a.dtstart := Nat.lt_of_not_le hr
        by_cases h : a.dtstart = k
        · have hb : ¬ b.dtstart = k := by omega
          simp [List.orderedInsert, hr, List.filter_cons, hb, ih, h]
        · simp [List.orderedInsert, hr, List.filter_cons, ih, h]

/-- Stability of the sort: occurrences whose `DTSTART` equals any given
key keep their original relative order (their filtered subsequence is
unchanged). -/
theorem filter_sort_events (k : Nat) (l : List Occurrence) :
    (sort_events l).filter (fun o => o.dtstart == k) =
      l.filter (fun o => o.dtstart == k) := by
  induction l with
  | nil => rfl
  | cons a t ih =>
      have hins : sort_events (a :: t) = List.orderedInsert startLE a (sort_events t) := rfl
      rw [hins, filter_orderedInsert, List.filter_cons]
      by_cases h : a.dtstart = k
      · simp [h, ih]
      · simp [h, ih]

/-- Result of one run of the `update_events` retry loop: `ok` carries the
returned `(calendar, events, event_hash)` triple (a parsed calendar is
modelled by the raw bytes it came from); `nameError` is the crash raised
by `Calendar.from_ical(ical_string)` when `ical_string` was never bound
(every fetch so far raised and was swallowed); `running` means the given
iterations were exhausted with the loop still going. -/
inductive UpdateResult where
  | ok (calendar : String) (events : List Occurrence) (digest : List Nat)
  | nameError
  | running
deriving DecidableEq

/-- The `update_events` retry loop of `alarmclock.py`, iteration by
iteration.  Per iteration the source does:
fetch into `ical_string` under `try/except: pass` (`fetches` supplies
`some raw` on success, `none` when `urlopen` raised and the bare except
swallowed it — `ical_string` then keeps its previous binding, `prev`);
parse and expand against the iteration's 7-day window (`expand raw i`,
the index standing for the window, which moves between iterations);
stable-sort by `DTSTART`; if empty, sleep `sleep_time` seconds and retry,
else exit the loop and return `(calendar, events, hash(event_str))`.
Returns the result paired with the total seconds slept. -/
def update_events_go (expand : String → Nat → List Occurrence) (sleep_time : Nat) :
    List (Option String) → Nat → Option String → UpdateResult × Nat
  | [], _, _ => (.running, 0)
  | f :: rest, i, prev =>
    match f.orElse (fun _ => prev) with
    | none => (.nameError, 0)
    | some raw =>
      let events := sort_events (expand raw i)
      if events.length < 1 then
        let r := update_events_go expand sleep_time rest (i + 1) (some raw)
        (r.1, sleep_time + r.2)
      else
        (.ok raw events (event_hash events), 0)

/-- Modelled from the spec: `recurring_ical_events.of(calendar).at(now)`,
the library call the polling loop uses for its activation test, is not
part of this repository; per the spec an occurrence is active at `now`
iff `start ≤ now < end`.  A parsed calendar is modelled here by its
expanded occurrence list. -/
def events_at (calendar : List Occurrence) (now : Nat) : List Occurrence :=
  calendar.filter (fun o => decide (o.dtstart ≤ now ∧ now < o.dtend))

/-- `len(recurring_ical_events.of(calendar).at(dt.now())) > 0`, the
activation test of the polling loop. -/
def alarm_active (calendar : List Occurrence) (now : Nat) : Bool :=
  (events_at calendar now).length > 0

/-- Observable steps of the polling loop: log lines, `show_summary`
emissions, relay switching, sleeps, and invocations of `update_events`
(the resolver). -/
inductive LoopAction where
  | log_starting
  | log_ending
  | show_summary
  | relay_on
  | relay_off
  | sleep (seconds : Nat)
  | resolve
deriving DecidableEq

/-- A successful `update_events` return, `calendar, events, new_event_hash`,
as consumed by the polling loop. -/
structure Resolved where
  calendar : List Occurrence
  events : List Occurrence
  event_hash : List Nat
deriving DecidableEq

/-- The polling loop's mutable variables: `calendar`, `events`,
`event_hash`, `last_update_time`. -/
structure LoopState where
  calendar : List Occurrence
  events : List Occurrence
  event_hash : List Nat
  last_update_time : Nat
deriving DecidableEq

/-- The periodic-refresh head of the polling loop:

`if int(time.time()) > (int(last_update_time) + int(refresh_frequency))`
then re-run `update_events` (result supplied as `res`), set
`last_update_time`, and `show_summary` + store the hash exactly when the
new hash differs. -/
def refresh_step (refresh_frequency : Nat) (res : Resolved) (now : Nat)
    (s : LoopState) : LoopState × List LoopAction :=
  if now > s.last_update_time + refresh_frequency then
    ({ calendar := res.calendar, events := res.events,
       event_hash := if res.event_hash ≠ s.event_hash then res.event_hash else s.event_hash,
       last_update_time := now },
     .resolve :: (if res.event_hash ≠ s.event_hash then [.show_summary] else []))
  else
    (s, [])

/-- One pass of the `with_gpio` inner alarm loop body, threading the relay
state (`relay.is_active`):

`if sensor.is_pressed: relay.on(); sleep(1)` then
`if relay.is_active: relay.off(); sleep(3)`. -/
def inner_body (pressed : Bool) (relay : Bool) : Bool × List LoopAction :=
  let step1 : Bool × List LoopAction :=
    if pressed then (true, [.relay_on, .sleep 1]) else (relay, [])
  if step1.1 then (false, step1.2 ++ [.relay_off, .sleep 3]) else (step1.1, step1.2)

/-- The inner `while len(at(calendar, dt.now())) > 0` alarm loop in
`with_gpio` mode.  `obs` supplies, per iteration, the instant `dt.now()`
observed by the loop condition and the sensor reading `sensor.is_pressed`;
the relay state is threaded through.  Returns the final relay state, the
emitted actions, and whether the loop exited by observing the alarm
inactive (`false` = the supplied observations ran out while still
active: the trace is a prefix of a still-running loop). -/
def inner_loop (calendar : List Occurrence) :
    List (Nat × Bool) → Bool → Bool × List LoopAction × Bool
  | [], relay => (relay, [], false)
  | (now, pressed) :: rest, relay =>
    if alarm_active calendar now then
      let b := inner_body pressed relay
      let r := inner_loop calendar rest b.1
      (r.1, b.2 ++ r.2.1, r.2.2)
    else
      (relay, [], true)

/-- The post-alarm tail of the polling loop, run when the inner loop
observes the alarm no longer active:

`logging.info('Ending alarm')`; re-run `update_events` (result `res`);
set `last_update_time`; `show_summary` + store the hash if it differs;
then `show_summary(events)` unconditionally. -/
def end_step (res : Resolved) (now : Nat) (s : LoopState) : LoopState × List LoopAction :=
  ({ calendar := res.calendar, events := res.events,
     event_hash := if res.event_hash ≠ s.event_hash then res.event_hash else s.event_hash,
     last_update_time := now },
   [.log_ending, .resolve] ++
     (if res.event_hash ≠ s.event_hash then [.show_summary] else []) ++
     [.show_summary])

/-- One iteration of the outer `while True` polling loop:

refresh check (`refresh_step`, resolver result `res_refresh`); then
`if len(at(calendar, dt.now())) > 0`: log `'Starting alarm'`,
`show_summary`, run the inner alarm loop over the observations `obs`,
and — when the inner loop saw the alarm end — the post-alarm tail
(`end_step` at instant `end_time`, resolver result `res_end`); finally
`time.sleep(1)` before the next tick.  When the observations end with
the alarm still active the tick's trace is the truncated prefix of a
still-running inner loop (no `sleep 1` has happened yet). -/
def tick (refresh_frequency : Nat) (res_refresh res_end : Resolved)
    (obs : List (Nat × Bool)) (end_time : Nat) (now : Nat) (s : LoopState) :
    LoopState × List LoopAction :=
  let rs := refresh_step refresh_frequency res_refresh now s
  if alarm_active rs.1.calendar now then
    let il := inner_loop rs.1.calendar obs false
    if il.2.2 then
      let es := end_step res_end end_time rs.1
      (es.1, rs.2 ++ [.log_starting, .show_summary] ++ il.2.1 ++ es.2 ++ [.sleep 1])
    else
      (rs.1, rs.2 ++ [.log_starting, .show_summary] ++ il.2.1)
  else
    (rs.1, rs.2 ++ [.sleep 1])

/-- C2: the Alarm Controller's activation test reports an occurrence
active exactly when `start ≤ now < end` holds for some occurrence in the
set; the `[10:00, 10:05)` boundary instances hold (times as seconds of
day: active at 10:00:00 and 10:04:59, inactive at 09:59:59 and 10:05:00);
and an occurrence whose end precedes (or equals) its start never passes
the activation comparison. -/
theorem alarm_active_iff_window :
    (∀ (calendar : List Occurrence) (now : Nat),
        alarm_active calendar now = true ↔
          ∃ o ∈ calendar, o.dtstart ≤ now ∧ now < o.dtend) ∧
    (alarm_active [⟨36000, 36300, "wake"⟩] 36000 = true ∧
      alarm_active [⟨36000, 36300, "wake"⟩] 36299 = true ∧
      alarm_active [⟨36000, 36300, "wake"⟩] 35999 = false ∧
      alarm_active [⟨36000, 36300, "wake"⟩] 36300 = false) ∧
    (∀ (o : Occurrence) (now : Nat) (calendar : List Occurrence),
        o.dtend ≤ o.dtstart → o ∉ events_at calendar now) := by
  refine ⟨?_, by decide, ?_⟩
  · intro calendar now
    simp [alarm_active, events_at, List.length_pos_iff_exists_mem, List.mem_filter]
  · intro o now calendar h hmem
    rw [events_at, List.mem_filter] at hmem
    have := of_decide_eq_true hmem.2
    omega

theorem alarm_active_iff_window_witness :
    (⟨5, 3, "w"⟩ : Occurrence) ∉ events_at [⟨5, 3, "w"⟩] 4 :=
  alarm_active_iff_window.2.2 ⟨5, 3, "w"⟩ 4 [⟨5, 3, "w"⟩] (by decide)

/-- C4: the fingerprint is a deterministic function of the sequence of
`(start, end)` pairs — two runs that resolve occurrence lists agreeing on
those pairs get equal fingerprints (in particular, two runs over
byte-identical calendar input, which resolve identical lists) — and
changing the `DTSTART` or the `DTEND` of any single occurrence changes
the fingerprint (its digest input). -/
theorem event_hash_deterministic_and_sensitive :
    (∀ l₁ l₂ : List Occurrence,
        l₁.map (fun o => (o.dtstart, o.dtend)) = l₂.map (fun o => (o.dtstart, o.dtend)) →
        event_hash l₁ = event_hash l₂) ∧
    (∀ (pre post : List Occurrence) (o : Occurrence) (s : Nat),
        s ≠ o.dtstart →
        event_hash (pre ++ o :: post) ≠
          event_hash (pre ++ { o with dtstart := s } :: post)) ∧
    (∀ (pre post : List Occurrence) (o : Occurrence) (e : Nat),
        e ≠ o.dtend →
        event_hash (pre ++ o :: post) ≠
          event_hash (pre ++ { o with dtend := e } :: post)) := by
  refine ⟨?_, ?_, ?_⟩
  · intro l₁ l₂ h
    exact event_str_eq_of_pairs_eq h
  · intro pre post o s hs heq
    rw [event_hash, event_hash, event_str_append, event_str_append,
      event_str_cons, event_str_cons] at heq
    dsimp only at heq
    have h1 := List.append_cancel_left heq
    have h2 := List.append_cancel_right h1
    have h3 := List.append_cancel_right h2
    exact hs (str_dt_injective h3).symm
  · intro pre post o e he heq
    rw [event_hash, event_hash, event_str_append, event_str_append,
      event_str_cons, event_str_cons] at heq
    dsimp only at heq
    have h1 := List.append_cancel_left heq
    have h2 := List.append_cancel_right h1
    have h3 := List.append_cancel_left h2
    exact he (str_dt_injective h3).symm

theorem event_hash_deterministic_and_sensitive_witness :
    event_hash [⟨1, 2, "a"⟩] = event_hash [⟨1, 2, "b"⟩] ∧
    event_hash ([] ++ (⟨1, 2, "a"⟩ : Occurrence) :: []) ≠
      event_hash ([] ++ (⟨3, 2, "a"⟩ : Occurrence) :: []) ∧
    event_hash ([] ++ (⟨1, 2, "a"⟩ : Occurrence) :: []) ≠
      event_hash ([] ++ (⟨1, 4, "a"⟩ : Occurrence) :: []) :=
  ⟨event_hash_deterministic_and_sensitive.1 [⟨1, 2, "a"⟩] [⟨1, 2, "b"⟩] rfl,
   event_hash_deterministic_and_sensitive.2.1 [] [] ⟨1, 2, "a"⟩ 3 (by decide),
   event_hash_deterministic_and_sensitive.2.2 [] [] ⟨1, 2, "a"⟩ 4 (by decide)⟩

/-- C10: the fingerprint never reads summaries — when two resolved
occurrence lists agree on every `(start, end)` pair in order, their
fingerprints are equal, so a summary-only calendar change makes the
periodic refresh's hash comparison see no difference and the summary is
not re-emitted there. -/
theorem fingerprint_independent_of_summaries :
    (∀ l₁ l₂ : List Occurrence,
        l₁.map (fun o => (o.dtstart, o.dtend)) = l₂.map (fun o => (o.dtstart, o.dtend)) →
        l₁.map (fun o => o.summary) ≠ l₂.map (fun o => o.summary) →
        event_hash l₁ = event_hash l₂) ∧
    (∀ (refresh_frequency now : Nat) (s : LoopState) (res : Resolved),
        s.event_hash = event_hash s.events →
        res.event_hash = event_hash res.events →
        res.events.map (fun o => (o.dtstart, o.dtend)) =
          s.events.map (fun o => (o.dtstart, o.dtend)) →
        LoopAction.show_summary ∉ (refresh_step refresh_frequency res now s).2) := by
  constructor
  · intro l₁ l₂ h _
    exact event_str_eq_of_pairs_eq h
  · intro freq now s res hs hres hpairs
    have hh : res.event_hash = s.event_hash := by
      rw [hs, hres]
      exact event_str_eq_of_pairs_eq hpairs
    rw [refresh_step]
    by_cases hc : now > s.last_update_time + freq
    · simp [hc, hh]
    · simp [hc]

theorem fingerprint_independent_of_summaries_witness :
    event_hash [⟨1, 2, "a"⟩] = event_hash [⟨1, 2, "b"⟩] ∧
    LoopAction.show_summary ∉
      (refresh_step 300
        (⟨[⟨1, 2, "b"⟩], [⟨1, 2, "b"⟩], event_hash [⟨1, 2, "b"⟩]⟩ : Resolved) 500
        (⟨[⟨1, 2, "a"⟩], [⟨1, 2, "a"⟩], event_hash [⟨1, 2, "a"⟩], 0⟩ : LoopState)).2 :=
  ⟨fingerprint_independent_of_summaries.1 [⟨1, 2, "a"⟩] [⟨1, 2, "b"⟩] rfl (by decide),
   fingerprint_independent_of_summaries.2 300 500
     ⟨[⟨1, 2, "a"⟩], [⟨1, 2, "a"⟩], event_hash [⟨1, 2, "a"⟩], 0⟩
     ⟨[⟨1, 2, "b"⟩], [⟨1, 2, "b"⟩], event_hash [⟨1, 2, "b"⟩]⟩ rfl rfl rfl⟩

/-- The expansion used for the C1 failing input: the first 7-day window
(iteration 0) holds no occurrence, the shifted window after the empty-set
sleep holds one. -/
def expand_stale (_raw : String) (i : Nat) : List Occurrence :=
  if i = 0 then [] else [⟨10, 20, "wake"⟩]

/-- C1: evaluation of `update_events` at the failing input.  Iteration 0
fetches raw bytes successfully but expands to no occurrence, so the loop
sleeps and retries; iteration 1's fetch raises, the bare
`except: pass` swallows the error, and the loop silently re-parses the
stale `ical_string` from iteration 0 and returns successfully — instead
of failing with a fatal error as the claim (and the spec's canonical
design) requires. -/
theorem update_events_stale_fallback :
    update_events_go expand_stale 300 [some "CAL", none] 0 none =
      (.ok "CAL" [⟨10, 20, "wake"⟩] (event_hash [⟨10, 20, "wake"⟩]), 300) := by
  simp [update_events_go, expand_stale, sort_events, List.insertionSort,
    List.orderedInsert, Option.orElse]

theorem update_events_go_ok (expand : String → Nat → List Occurrence) (sleep_time : Nat) :
    ∀ (fetches : List (Option String)) (i : Nat) (prev : Option String)
      (cal : String) (evs : List Occurrence) (dg : List Nat) (slept : Nat),
      update_events_go expand sleep_time fetches i prev = (.ok cal evs dg, slept) →
      evs ≠ [] ∧ (∃ raw j, evs = sort_events (expand raw j)) ∧
        ∃ n, slept = sleep_time * n := by
  intro fetches
  induction fetches with
  | nil =>
      intro i prev cal evs dg slept h
      simp [update_events_go] at h
  | cons f rest ih =>
      intro i prev cal evs dg slept h
      rw [update_events_go] at h
      cases hf : f.orElse (fun _ => prev) with
      | none => rw [hf] at h; simp at h
      | some raw =>
          rw [hf] at h
          dsimp only at h
          by_cases hlen : (sort_events (expand raw i)).length < 1
          · rw [if_pos hlen] at h
            have h1 := congrArg Prod.fst h
            have h2 := congrArg Prod.snd h
            dsimp only at h1 h2
            have hrec : update_events_go expand sleep_time rest (i + 1) (some raw) =
                (.ok cal evs dg, (update_events_go expand sleep_time rest (i + 1) (some raw)).2) := by
              rw [← h1]
            obtain ⟨hne, hsort, n, hn⟩ := ih (i + 1) (some raw) cal evs dg _ hrec
            refine ⟨hne, hsort, n + 1, ?_⟩
            rw [Nat.mul_succ, ← h2, hn, Nat.add_comm]
          · rw [if_neg hlen] at h
            rw [Prod.mk.injEq, UpdateResult.ok.injEq] at h
            obtain ⟨⟨hcal, hevs, hdg⟩, hslept⟩ := h
            refine ⟨?_, ⟨raw, i, hevs.symm⟩, 0, by omega⟩
            intro hnil
            rw [hevs, hnil] at hlen
            simp at hlen

/-- C3: whenever `update_events` returns, the returned occurrence list is
non-empty and sorted ascending by `DTSTART`, stably (occurrences with
equal `DTSTART` keep their pre-sort order); an iteration whose expansion
is empty sleeps the configured poll interval (`sleep_time`, default 300
seconds) and retries, so the total slept is a whole multiple of the
interval; and when every expansion is empty the loop never returns an
occurrence set at all — it retries without bound. -/
theorem update_events_returns_nonempty_sorted :
    (∀ expand sleep_time fetches i prev cal evs dg slept,
        update_events_go expand sleep_time fetches i prev = (.ok cal evs dg, slept) →
        evs ≠ [] ∧ List.Sorted startLE evs ∧
          (∃ raw j, evs = sort_events (expand raw j) ∧
            ∀ k, evs.filter (fun o => o.dtstart == k) =
              (expand raw j).filter (fun o => o.dtstart == k)) ∧
          ∃ n, slept = sleep_time * n) ∧
    (∀ expand sleep_time (f : Option String) rest i prev raw,
        f.orElse (fun _ => prev) = some raw →
        expand raw i = [] →
        update_events_go expand sleep_time (f :: rest) i prev =
          ((update_events_go expand sleep_time rest (i + 1) (some raw)).1,
            sleep_time + (update_events_go expand sleep_time rest (i + 1) (some raw)).2)) ∧
    (∀ expand sleep_time fetches i prev,
        (∀ raw j, expand raw j = []) →
        ∀ cal evs dg,
          (update_events_go expand sleep_time fetches i prev).1 ≠ .ok cal evs dg) := by
  refine ⟨?_, ?_, ?_⟩
  · intro expand sleep_time fetches i prev cal evs dg slept h
    obtain ⟨hne, ⟨raw, j, hevs⟩, n, hn⟩ := update_events_go_ok expand sleep_time fetches i prev cal evs dg slept h
    refine ⟨hne, ?_, ⟨raw, j, hevs, ?_⟩, n, hn⟩
    · rw [hevs]; exact sorted_sort_events _
    · intro k; rw [hevs]; exact filter_sort_events k _
  · intro expand sleep_time f rest i prev raw hf hemp
    rw [update_events_go, hf]
    dsimp only
    rw [hemp]
    rw [if_pos (by simp [sort_events, List.insertionSort])]
  · intro expand sleep_time fetches
    induction fetches with
    | nil =>
        intro i prev hemp cal evs dg
        simp [update_events_go]
    | cons f rest ih =>
        intro i prev hemp cal evs dg
        rw [update_events_go]
        cases hf : f.orElse (fun _ => prev) with
        | none => simp
        | some raw =>
            dsimp only
            rw [hemp raw i, if_pos (by simp [sort_events, List.insertionSort])]
            exact ih (i + 1) (some raw) hemp cal evs dg

theorem update_events_returns_nonempty_sorted_witness :
    ([⟨1, 2, "a"⟩] : List Occurrence) ≠ [] ∧
    update_events_go (fun _ _ => []) 300 [some "C"] 0 none =
      ((update_events_go (fun _ _ => []) 300 [] 1 (some "C")).1,
        300 + (update_events_go (fun _ _ => []) 300 [] 1 (some "C")).2) ∧
    (update_events_go (fun _ _ => []) 300 [some "C"] 0 none).1 ≠
      .ok "C" [] (event_hash []) :=
  ⟨(update_events_returns_nonempty_sorted.1 (fun _ _ => [⟨1, 2, "a"⟩]) 300 [some "C"] 0 none
      "C" [⟨1, 2, "a"⟩] (event_hash [⟨1, 2, "a"⟩]) 0
      (by simp [update_events_go, sort_events, List.insertionSort, List.orderedInsert,
        Option.orElse])).1,
   update_events_returns_nonempty_sorted.2.1 (fun _ _ => []) 300 (some "C") [] 0 none "C" rfl rfl,
   update_events_returns_nonempty_sorted.2.2 (fun _ _ => []) 300 [some "C"] 0 none
     (fun _ _ => rfl) "C" [] (event_hash [])⟩

/-- C9 (amended): on every outer tick the periodic refresh re-runs the
resolver exactly when `int(time.time())` strictly exceeds
`int(last_update_time) + int(refresh_frequency)` — not already when the
elapsed time equals the interval — and when the strict test fails the
stored calendar, occurrence set, fingerprint and resolve timestamp are
left unchanged and nothing is emitted. -/
theorem refresh_step_strict_condition :
    ∀ (refresh_frequency : Nat) (res : Resolved) (now : Nat) (s : LoopState),
      (LoopAction.resolve ∈ (refresh_step refresh_frequency res now s).2 ↔
        now > s.last_update_time + refresh_frequency) ∧
      (¬ now > s.last_update_time + refresh_frequency →
        refresh_step refresh_frequency res now s = (s, [])) ∧
      (now > s.last_update_time + refresh_frequency →
        (refresh_step refresh_frequency res now s).1.last_update_time = now ∧
        (refresh_step refresh_frequency res now s).1.calendar = res.calendar ∧
        (refresh_step refresh_frequency res now s).1.events = res.events) := by
  intro freq res now s
  by_cases hc : now > s.last_update_time + freq
  · refine ⟨?_, fun h => absurd hc h, fun _ => ?_⟩
    · rw [refresh_step, if_pos hc]
      simp [hc]
    · rw [refresh_step, if_pos hc]
      exact ⟨rfl, rfl, rfl⟩
  · refine ⟨?_, fun _ => by rw [refresh_step, if_neg hc], fun h => absurd h hc⟩
    rw [refresh_step, if_neg hc]
    simp [hc]

theorem refresh_step_strict_condition_witness :
    refresh_step 300 (⟨[⟨1, 2, "a"⟩], [⟨1, 2, "a"⟩], []⟩ : Resolved) 100
        (⟨[], [], [], 0⟩ : LoopState) = (⟨[], [], [], 0⟩, []) ∧
    (refresh_step 300 (⟨[⟨1, 2, "a"⟩], [⟨1, 2, "a"⟩], []⟩ : Resolved) 500
        (⟨[], [], [], 0⟩ : LoopState)).1.last_update_time = 500 :=
  ⟨(refresh_step_strict_condition 300 ⟨[⟨1, 2, "a"⟩], [⟨1, 2, "a"⟩], []⟩ 100
      ⟨[], [], [], 0⟩).2.1 (by decide),
   ((refresh_step_strict_condition 300 ⟨[⟨1, 2, "a"⟩], [⟨1, 2, "a"⟩], []⟩ 500
      ⟨[], [], [], 0⟩).2.2 (by decide)).1⟩

/-- C9 counterexample: with the last successful resolve at time 0 and a
300-second refresh interval, at `now = 300` the elapsed time equals the
interval, so the claim requires a refresh; the loop's strict comparison
skips it — the resolver is not invoked and the state is unchanged. -/
theorem refresh_skipped_at_exact_interval :
    (300 : Nat) - 0 ≥ 300 ∧
    refresh_step 300 (⟨[⟨1, 2, "a"⟩], [⟨1, 2, "a"⟩], []⟩ : Resolved) 300
        (⟨[], [], [], 0⟩ : LoopState) = (⟨[], [], [], 0⟩, []) :=
  ⟨by omega, rfl⟩

/-- C7 (amended): the fingerprint comparison is a pure equality test used
to gate summary logging; on a periodic refresh the summary is re-emitted
exactly when the new fingerprint differs from the stored one, but after
the post-alarm resolve the summary is re-emitted unconditionally (twice
when the fingerprint differs); and fingerprint equality never causes the
per-tick activation test to be skipped — with an unchanged fingerprint
the tick still enters the alarm branch whenever an occurrence is active. -/
theorem fingerprint_comparison_gates_summary :
    (∀ (refresh_frequency : Nat) (res : Resolved) (now : Nat) (s : LoopState),
        now > s.last_update_time + refresh_frequency →
        (LoopAction.show_summary ∈ (refresh_step refresh_frequency res now s).2 ↔
          res.event_hash ≠ s.event_hash)) ∧
    (∀ (res : Resolved) (now : Nat) (s : LoopState),
        LoopAction.show_summary ∈ (end_step res now s).2) ∧
    (∀ freq rr re obs et now s,
        rr.event_hash = s.event_hash →
        alarm_active (refresh_step freq rr now s).1.calendar now = true →
        LoopAction.log_starting ∈ (tick freq rr re obs et now s).2) := by
  refine ⟨?_, ?_, ?_⟩
  · intro freq res now s h
    rw [refresh_step, if_pos h]
    by_cases hh : res.event_hash ≠ s.event_hash <;> simp [hh]
  · intro res now s
    rw [end_step]
    by_cases hh : res.event_hash ≠ s.event_hash <;> simp [hh]
  · intro freq rr re obs et now s hh hact
    by_cases hd : (inner_loop (refresh_step freq rr now s).1.calendar obs false).2.2 <;>
      simp [tick, hact, hd]

theorem fingerprint_comparison_gates_summary_witness :
    LoopAction.show_summary ∈
      (refresh_step 0 (⟨[], [], [5]⟩ : Resolved) 1 (⟨[], [], [], 0⟩ : LoopState)).2 ∧
    LoopAction.show_summary ∈
      (end_step (⟨[], [], []⟩ : Resolved) 0 (⟨[], [], [], 0⟩ : LoopState)).2 ∧
    LoopAction.log_starting ∈
      (tick 0 (⟨[⟨0, 5, "a"⟩], [⟨0, 5, "a"⟩], []⟩ : Resolved) (⟨[], [], []⟩ : Resolved)
        [] 2 1 (⟨[], [], [], 0⟩ : LoopState)).2 :=
  ⟨(fingerprint_comparison_gates_summary.1 0 ⟨[], [], [5]⟩ 1 ⟨[], [], [], 0⟩
      (by decide)).mpr (by decide),
   fingerprint_comparison_gates_summary.2.1 ⟨[], [], []⟩ 0 ⟨[], [], [], 0⟩,
   fingerprint_comparison_gates_summary.2.2 0 ⟨[⟨0, 5, "a"⟩], [⟨0, 5, "a"⟩], []⟩
     ⟨[], [], []⟩ [] 2 1 ⟨[], [], [], 0⟩ rfl (by decide)⟩

/-- C7 counterexample: after the post-alarm resolve the summary is
re-emitted even though the new fingerprint equals the stored one (both
are the empty digest here), contradicting "re-emitted exactly when the
new fingerprint differs from the stored one" for that resolve. -/
theorem post_alarm_summary_despite_equal_fingerprint :
    (⟨[], [], []⟩ : Resolved).event_hash = (⟨[], [], [], 0⟩ : LoopState).event_hash ∧
    LoopAction.show_summary ∈
      (end_step (⟨[], [], []⟩ : Resolved) 5 (⟨[], [], [], 0⟩ : LoopState)).2 := by
  exact ⟨rfl, by decide⟩

/-- C5: while the alarm is active and the occupancy sensor reports
present, actuation is a discrete pulse — the relay is energized, held
1 second, de-energized, and a 3-second pause runs before the next sensor
check — and every pass of the inner body ends with the relay
de-energized, so the relay output is never sustained across consecutive
sensor checks. -/
theorem pulse_then_pause_never_sustained :
    inner_body true false =
      (false, [.relay_on, .sleep 1, .relay_off, .sleep 3]) ∧
    ∀ (pressed relay : Bool), (inner_body pressed relay).1 = false := by
  refine ⟨rfl, ?_⟩
  intro pressed relay
  cases pressed <;> cases relay <;> rfl

theorem inner_loop_no_relay_on (cal : List Occurrence) :
    ∀ (obs : List (Nat × Bool)), (∀ p ∈ obs, (p : Nat × Bool).2 = false) →
      LoopAction.relay_on ∉ (inner_loop cal obs false).2.1
  | [], _ => by simp [inner_loop]
  | (now, pressed) :: rest, hobs => by
      have hp : pressed = false := hobs (now, pressed) (List.mem_cons_self _ _)
      subst hp
      rw [inner_loop]
      by_cases ha : alarm_active cal now
      · rw [if_pos ha]
        have hb : inner_body false false = (false, []) := rfl
        simp only [hb]
        simpa using
          inner_loop_no_relay_on cal rest (fun p hp => hobs p (List.mem_cons_of_mem _ hp))
      · rw [if_neg ha]
        simp

/-- C6: the relay is energized only while the controller is Active — a
tick whose activation test is false (Idle) emits no `relay_on` at all —
and even while Active, when the occupancy sensor never reports present
the inner loop never energizes the relay. -/
theorem relay_only_while_active :
    (∀ freq rr re obs et now s,
        alarm_active (refresh_step freq rr now s).1.calendar now = false →
        LoopAction.relay_on ∉ (tick freq rr re obs et now s).2) ∧
    (∀ (cal : List Occurrence) (obs : List (Nat × Bool)),
        (∀ p ∈ obs, (p : Nat × Bool).2 = false) →
        LoopAction.relay_on ∉ (inner_loop cal obs false).2.1) := by
  constructor
  · intro freq rr re obs et now s hact
    by_cases hc : now > s.last_update_time + freq
    · rw [refresh_step, if_pos hc] at hact
      dsimp only at hact
      by_cases hh : rr.event_hash ≠ s.event_hash <;>
        simp [tick, refresh_step, hc, hh, hact]
    · rw [refresh_step, if_neg hc] at hact
      dsimp only at hact
      simp [tick, refresh_step, hc, hact]
  · exact inner_loop_no_relay_on

theorem relay_only_while_active_witness :
    LoopAction.relay_on ∉
      (tick 300 (⟨[], [], []⟩ : Resolved) (⟨[], [], []⟩ : Resolved) [] 0 0
        (⟨[], [], [], 0⟩ : LoopState)).2 ∧
    LoopAction.relay_on ∉ (inner_loop [⟨0, 5, "a"⟩] [(1, false)] false).2.1 :=
  ⟨relay_only_while_active.1 300 ⟨[], [], []⟩ ⟨[], [], []⟩ [] 0 0 ⟨[], [], [], 0⟩
     (by decide),
   relay_only_while_active.2 [⟨0, 5, "a"⟩] [(1, false)] (by decide)⟩

/-- C8: when the activation test held at the tick (the alarm started) and
the inner loop then observed it no longer active, the tick logs the
ending transition, re-invokes the resolver exactly once immediately after
it (the post-alarm refresh — followed only by summary emission before the
closing 1-second sleep), and completes with the post-alarm state, so
control is back at the outer loop head (Idle) before the next tick. -/
theorem alarm_end_logs_and_refreshes_once :
    ∀ freq rr re obs et now s,
      alarm_active (refresh_step freq rr now s).1.calendar now = true →
      (inner_loop (refresh_step freq rr now s).1.calendar obs false).2.2 = true →
      ∃ pre opt,
        (tick freq rr re obs et now s).2 =
          pre ++ [LoopAction.log_ending, LoopAction.resolve] ++ opt ++
            [LoopAction.show_summary, LoopAction.sleep 1] ∧
        (opt = [] ∨ opt = [LoopAction.show_summary]) ∧
        (tick freq rr re obs et now s).1 =
          (end_step re et (refresh_step freq rr now s).1).1 := by
  intro freq rr re obs et now s hact hdone
  refine ⟨(refresh_step freq rr now s).2 ++
      [LoopAction.log_starting, LoopAction.show_summary] ++
      (inner_loop (refresh_step freq rr now s).1.calendar obs false).2.1,
    if re.event_hash ≠ (refresh_step freq rr now s).1.event_hash then
      [LoopAction.show_summary] else [], ?_, ?_, ?_⟩
  · by_cases hh : re.event_hash ≠ (refresh_step freq rr now s).1.event_hash <;>
      simp [tick, hact, hdone, end_step, hh]
  · by_cases hh : re.event_hash ≠ (refresh_step freq rr now s).1.event_hash <;>
      simp [hh]
  · simp [tick, hact, hdone]

theorem alarm_end_logs_and_refreshes_once_witness :
    ∃ pre opt,
      (tick 0 (⟨[⟨0, 2, "a"⟩], [⟨0, 2, "a"⟩], []⟩ : Resolved) (⟨[], [], []⟩ : Resolved)
        [(1, false), (3, false)] 4 1 (⟨[], [], [], 0⟩ : LoopState)).2 =
        pre ++ [LoopAction.log_ending, LoopAction.resolve] ++ opt ++
          [LoopAction.show_summary, LoopAction.sleep 1] ∧
      (opt = [] ∨ opt = [LoopAction.show_summary]) ∧
      (tick 0 (⟨[⟨0, 2, "a"⟩], [⟨0, 2, "a"⟩], []⟩ : Resolved) (⟨[], [], []⟩ : Resolved)
        [(1, false), (3, false)] 4 1 (⟨[], [], [], 0⟩ : LoopState)).1 =
        (end_step ⟨[], [], []⟩ 4
          (refresh_step 0 ⟨[⟨0, 2, "a"⟩], [⟨0, 2, "a"⟩], []⟩ 1 ⟨[], [], [], 0⟩).1).1 :=
  alarm_end_logs_and_refreshes_once 0 ⟨[⟨0, 2, "a"⟩], [⟨0, 2, "a"⟩], []⟩ ⟨[], [], []⟩
    [(1, false), (3, false)] 4 1 ⟨[], [], [], 0⟩ (by decide) (by decide)
